import Mathlib

/-!
Verification of `src/instructions/check_file_length.py`, a checker that
scans a list of candidate paths, counts the lines of each path ending in
`.py`, and reports every such file with more than 300 lines.

The filesystem visible to the program is modelled as a function from paths
to either the decoded text of the file or a failure description (the model
of the exception caught on lines 16-18).  The output of a run is the list
of lines printed to standard output together with the exit status.
-/

namespace CheckFileLength

/-- A model of the filesystem visible to the checker: reading a path either
succeeds with the decoded text of the file (line terminators normalised to
the newline character, as in text mode) or fails with a failure
description, as `open(filepath)` plus the read on lines 12-13 either yields
the text or raises an exception. -/
abbrev FileSystem := String → Except String String

/-- The observable outcome of one run of `main`: the lines printed to
standard output, in order, and the process exit status. -/
structure RunResult where
  out : List String
  exitCode : Nat
deriving DecidableEq

/-- Line 9: `filepath.endswith('.py')`, a case-sensitive literal suffix
test. -/
def qualifies (filepath : String) : Bool :=
  ".py".data.isSuffixOf filepath.data

/-- Split a text into its Python line records: `splitRecords cur cs`
processes the remaining characters `cs` carrying the reversed partially
read current line `cur`; each newline character ends a record, and a
nonempty final partial line yields one last record.  This is the line
iteration behind `sum(1 for _ in f)` on line 13. -/
def splitRecords : List Char → List Char → List (List Char)
  | cur, [] => if cur = [] then [] else [cur.reverse]
  | cur, c :: cs =>
    if c = '\n' then (cur.reverse ++ ['\n']) :: splitRecords [] cs
    else splitRecords (c :: cur) cs

/-- Line 13: `line_count = sum(1 for _ in f)`, one per line record. -/
def countLines (text : String) : Nat :=
  (splitRecords [] text.data).length

/-- Line 17: the error message printed on a read failure. -/
def errLine (filepath failure : String) : String :=
  "Error reading " ++ filepath ++ ": " ++ failure

/-- Line 23: one line of the violation report — two spaces, the path, a
colon and a space, the count, and the word lines. -/
def fmtViolation (filepath : String) (count : Nat) : String :=
  "  " ++ filepath ++ ": " ++ toString count ++ " lines"

/-- Lines 20-26: the final report.  With an empty violation list the
program prints nothing and exits 0; otherwise it prints the header and one
formatted line per violation, in list order, and exits 1. -/
def report : List (String × Nat) → RunResult
  | [] => ⟨[], 0⟩
  | vs => ⟨"Files exceeding 300 lines:" :: vs.map (fun v => fmtViolation v.1 v.2), 1⟩

/-- The loop of `main` (lines 8-18) with the `violations` accumulator made
explicit.  A non-qualifying path is skipped without touching the
filesystem; a read failure on a qualifying path prints the error line and
exits 1 at once, discarding the accumulator; a successful read appends the
pair to the accumulator exactly when the count exceeds 300; when the
arguments are exhausted the report phase runs. -/
def scanLoop (fs : FileSystem) : List String → List (String × Nat) → RunResult
  | [], violations => report violations
  | filepath :: rest, violations =>
    if qualifies filepath then
      match fs filepath with
      | .error e => ⟨[errLine filepath e], 1⟩
      | .ok text =>
        if countLines text > 300 then
          scanLoop fs rest (violations ++ [(filepath, countLines text)])
        else scanLoop fs rest violations
    else scanLoop fs rest violations

/-- Lines 6-26: `main` runs the scan over the whole argument list starting
from the empty accumulator. -/
def main (fs : FileSystem) (args : List String) : RunResult :=
  scanLoop fs args []

/-- The outcome of the scan phase alone: either the first read failure
(its path and failure description) or the list of violations collected in
scan order. -/
def scanResult (fs : FileSystem) : List String → Except (String × String) (List (String × Nat))
  | [] => .ok []
  | filepath :: rest =>
    if qualifies filepath then
      match fs filepath with
      | .error e => .error (filepath, e)
      | .ok text =>
        if countLines text > 300 then
          (scanResult fs rest).map (fun vs => (filepath, countLines text) :: vs)
        else scanResult fs rest
    else scanResult fs rest

/-- The contribution of a single path to the violation list: a qualifying,
readable path with more than 300 lines contributes its pair, any other
path contributes nothing. -/
def violOf (fs : FileSystem) (filepath : String) : Option (String × Nat) :=
  if qualifies filepath then
    match fs filepath with
    | .ok text => if countLines text > 300 then some (filepath, countLines text) else none
    | .error _ => none
  else none

/-- The line-record count in the words of the specification: the number of
line terminators, plus one when a nonempty text does not end with a line
terminator (the final unterminated partial line). -/
def specRecordCount (text : String) : Nat :=
  text.data.count '\n' +
    (if text.data ≠ [] ∧ text.data.getLast? ≠ some '\n' then 1 else 0)

/-! ### Helper lemmas -/

theorem splitRecords_nil (cur : List Char) :
    splitRecords cur [] = if cur = [] then [] else [cur.reverse] := by
  rw [splitRecords]

theorem splitRecords_cons (cur : List Char) (c : Char) (cs : List Char) :
    splitRecords cur (c :: cs) =
      if c = '\n' then (cur.reverse ++ ['\n']) :: splitRecords [] cs
      else splitRecords (c :: cur) cs := by
  rw [splitRecords]

theorem splitRecords_length (l : List Char) : ∀ cur : List Char,
    (splitRecords cur l).length =
      l.count '\n' +
        (if l = [] then (if cur = [] then 0 else 1)
         else if l.getLast? = some '\n' then 0 else 1) := by
  induction l with
  | nil =>
    intro cur
    rw [splitRecords_nil]
    by_cases h : cur = [] <;> simp [h]
  | cons c cs ih =>
    intro cur
    rw [splitRecords_cons]
    by_cases hc : c = '\n'
    · rw [if_pos hc, List.length_cons, ih [], List.count_cons]
      subst hc
      cases cs with
      | nil => simp
      | cons d ds =>
        rw [List.getLast?_cons_cons]
        have hne : d :: ds ≠ [] := List.cons_ne_nil d ds
        rw [if_neg hne, if_neg (List.cons_ne_nil _ _)]
        simp
        omega
    · rw [if_neg hc, ih (c :: cur), List.count_cons]
      cases cs with
      | nil =>
        rw [if_neg (List.cons_ne_nil _ _)]
        simp [List.getLast?_singleton, hc]
      | cons d ds =>
        have hne : d :: ds ≠ [] := List.cons_ne_nil d ds
        rw [if_neg hne, if_neg (List.cons_ne_nil _ _), List.getLast?_cons_cons]
        simp [hc]

theorem countLines_eq_specRecordCount (text : String) :
    countLines text = specRecordCount text := by
  rw [countLines, specRecordCount, splitRecords_length]
  by_cases h : text.data = []
  · simp [h]
  · by_cases hg : text.data.getLast? = some '\n' <;> simp [h, hg]

theorem scanLoop_ok (fs : FileSystem) (args : List String) :
    ∀ (acc vs : List (String × Nat)), scanResult fs args = .ok vs →
      scanLoop fs args acc = report (acc ++ vs) := by
  induction args with
  | nil =>
    intro acc vs h
    simp only [scanResult] at h
    cases h
    simp [scanLoop]
  | cons filepath rest ih =>
    intro acc vs h
    by_cases hq : qualifies filepath
    · cases hfs : fs filepath with
      | error e => simp [scanResult, hq, hfs] at h
      | ok text =>
        by_cases hc : countLines text > 300
        · simp only [scanResult, hq, if_true, hfs, hc] at h
          cases hr : scanResult fs rest with
          | error pe => rw [hr] at h; simp [Except.map] at h
          | ok vs0 =>
            rw [hr] at h
            simp only [Except.map] at h
            cases h
            simp only [scanLoop, hq, if_true, hfs, hc]
            rw [ih (acc ++ [(filepath, countLines text)]) vs0 hr]
            simp
        · simp only [scanResult, hq, if_true, hfs, hc] at h
          simp only [scanLoop, hq, if_true, hfs, hc, if_false]
          exact ih acc vs h
    · simp only [scanResult, hq, if_false] at h
      simp only [scanLoop, hq, if_false]
      exact ih acc vs h

theorem scanLoop_error (fs : FileSystem) (args : List String) :
    ∀ (acc : List (String × Nat)) (P e : String), scanResult fs args = .error (P, e) →
      scanLoop fs args acc = ⟨[errLine P e], 1⟩ := by
  induction args with
  | nil => intro acc P e h; simp [scanResult] at h
  | cons filepath rest ih =>
    intro acc P e h
    by_cases hq : qualifies filepath
    · cases hfs : fs filepath with
      | error e0 =>
        simp only [scanResult, hq, if_true, hfs] at h
        cases h
        simp [scanLoop, hq, hfs]
      | ok text =>
        by_cases hc : countLines text > 300
        · simp only [scanResult, hq, if_true, hfs, hc] at h
          cases hr : scanResult fs rest with
          | error pe =>
            rw [hr] at h
            simp only [Except.map] at h
            cases h
            simp only [scanLoop, hq, if_true, hfs, hc, if_true]
            exact ih _ P e hr
          | ok vs0 => rw [hr] at h; simp [Except.map] at h
        · simp only [scanResult, hq, if_true, hfs, hc] at h
          simp only [scanLoop, hq, if_true, hfs, hc, if_false]
          exact ih acc P e h
    · simp only [scanResult, hq, if_false] at h
      simp only [scanLoop, hq, if_false]
      exact ih acc P e h

/-- `main` factors through the scan phase: a read failure yields the single
error line and exit 1, a completed scan yields the report of the collected
violations. -/
theorem main_eq_scan (fs : FileSystem) (args : List String) :
    main fs args = match scanResult fs args with
      | .error pe => ⟨[errLine pe.1 pe.2], 1⟩
      | .ok vs => report vs := by
  cases h : scanResult fs args with
  | error pe => exact scanLoop_error fs args [] pe.1 pe.2 (by rw [h])
  | ok vs => rw [main, scanLoop_ok fs args [] vs h]; simp

theorem scanResult_congr (fs₁ fs₂ : FileSystem) (args : List String)
    (h : ∀ p ∈ args, qualifies p = true → fs₁ p = fs₂ p) :
    scanResult fs₁ args = scanResult fs₂ args := by
  induction args with
  | nil => rfl
  | cons filepath rest ih =>
    have hrest : ∀ p ∈ rest, qualifies p = true → fs₁ p = fs₂ p :=
      fun p hp => h p (List.mem_cons_of_mem _ hp)
    by_cases hq : qualifies filepath
    · have heq := h filepath (List.mem_cons_self _ _) hq
      simp only [scanResult, hq, if_true, ← heq, ih hrest]
    · simp [scanResult, hq, ih hrest]

theorem scanResult_ok_eq (fs : FileSystem) (args : List String) :
    ∀ vs : List (String × Nat), scanResult fs args = .ok vs →
      vs = args.filterMap (violOf fs) := by
  induction args with
  | nil => intro vs h; simp only [scanResult] at h; cases h; rfl
  | cons filepath rest ih =>
    intro vs h
    by_cases hq : qualifies filepath
    · cases hfs : fs filepath with
      | error e => simp [scanResult, hq, hfs] at h
      | ok text =>
        by_cases hc : countLines text > 300
        · simp only [scanResult, hq, if_true, hfs, hc] at h
          cases hr : scanResult fs rest with
          | error pe => rw [hr] at h; simp [Except.map] at h
          | ok vs0 =>
            rw [hr] at h
            simp only [Except.map] at h
            cases h
            rw [List.filterMap_cons]
            simp only [violOf, hq, if_true, hfs, hc, if_true]
            rw [← ih vs0 hr]
        · simp only [scanResult, hq, if_true, hfs, hc] at h
          rw [List.filterMap_cons]
          simp only [violOf, hq, if_true, hfs, hc, if_false]
          exact ih vs h
    · simp only [scanResult, hq, if_false] at h
      rw [List.filterMap_cons]
      simp only [violOf, hq, if_false]
      exact ih vs h

theorem scanResult_ok_of_reads (fs : FileSystem) (args : List String)
    (h : ∀ p ∈ args, qualifies p = true → ∃ text, fs p = .ok text) :
    scanResult fs args = .ok (args.filterMap (violOf fs)) := by
  induction args with
  | nil => rfl
  | cons filepath rest ih =>
    have hrest : ∀ p ∈ rest, qualifies p = true → ∃ text, fs p = .ok text :=
      fun p hp => h p (List.mem_cons_of_mem _ hp)
    rw [List.filterMap_cons]
    by_cases hq : qualifies filepath
    · obtain ⟨text, htext⟩ := h filepath (List.mem_cons_self _ _) hq
      by_cases hc : countLines text > 300
      · simp only [scanResult, hq, if_true, htext, hc, if_true, ih hrest,
          violOf, Except.map]
      · simp only [scanResult, hq, if_true, htext, hc, if_false, ih hrest,
          violOf]
    · simp [scanResult, hq, ih hrest, violOf]

theorem scanResult_error_first (fs : FileSystem) (pre : List String)
    (post : List String) (P e : String)
    (hpre : ∀ q ∈ pre, qualifies q = true → ∃ text, fs q = .ok text)
    (hq : qualifies P = true) (hfs : fs P = .error e) :
    scanResult fs (pre ++ P :: post) = .error (P, e) := by
  induction pre with
  | nil => simp [scanResult, hq, hfs]
  | cons q pre ih =>
    have hpre2 : ∀ r ∈ pre, qualifies r = true → ∃ text, fs r = .ok text :=
      fun r hr => hpre r (List.mem_cons_of_mem _ hr)
    rw [List.cons_append]
    by_cases hq2 : qualifies q
    · obtain ⟨text, htext⟩ := hpre q (List.mem_cons_self _ _) hq2
      by_cases hc : countLines text > 300
      · simp only [scanResult, hq2, if_true, htext, hc, if_true, ih hpre2,
          Except.map]
      · simp only [scanResult, hq2, if_true, htext, hc, if_false, ih hpre2]
    · simp [scanResult, hq2, ih hpre2]

theorem scanResult_skip (fs : FileSystem) (p : String)
    (hq : qualifies p = false) (pre post : List String) :
    scanResult fs (pre ++ p :: post) = scanResult fs (pre ++ post) := by
  induction pre with
  | nil => simp [scanResult, hq]
  | cons q pre ih =>
    rw [List.cons_append, List.cons_append]
    by_cases hq2 : qualifies q
    · cases hfs : fs q with
      | error e => simp [scanResult, hq2, hfs]
      | ok text =>
        by_cases hc : countLines text > 300 <;>
          simp only [scanResult, hq2, if_true, hfs, hc, if_true, if_false, ih]
    · simp only [scanResult, hq2, if_false, ih]

theorem violOf_fst (fs : FileSystem) (a : String) (pr : String × Nat)
    (h : violOf fs a = some pr) : pr.1 = a := by
  rw [violOf] at h
  split at h
  · split at h
    · split at h
      · cases h; rfl
      · cases h
    · cases h
  · cases h

theorem count_filterMap_violOf (fs : FileSystem) (p : String) (n : Nat)
    (hv : violOf fs p = some (p, n)) :
    ∀ args : List String, (args.filterMap (violOf fs)).count (p, n) = args.count p := by
  intro args
  induction args with
  | nil => rfl
  | cons a rest ih =>
    rw [List.filterMap_cons]
    by_cases hap : a = p
    · subst hap
      rw [hv, List.count_cons, List.count_cons, ih]
      simp
    · cases hva : violOf fs a with
      | none =>
        rw [ih, List.count_cons]
        simp [hap]
      | some pr =>
        have h1 : pr.1 = a := violOf_fst fs a pr hva
        have hne : pr ≠ (p, n) := by
          intro he
          apply hap
          rw [← h1, he]
        rw [List.count_cons, List.count_cons, ih]
        simp [hap, hne]

/-! ### Concrete fixtures used by the witnesses -/

/-- A file text of exactly 301 empty lines. -/
def text301 : String := ⟨List.replicate 301 '\n'⟩

/-- A tiny concrete filesystem: `a.py` has 301 lines, `small.py` has one
line, and every other path fails to open. -/
def fsA : FileSystem := fun p =>
  if p = "a.py" then .ok text301
  else if p = "small.py" then .ok "line one\n"
  else .error "No such file or directory"

/-! ### The claims -/

/-- C1: for every qualifying path read successfully during a scan that
completes, the file is reported as a violation (appears in the collected
violation list that the report phase prints) if and only if its line count
is strictly greater than 300. -/
theorem claim_C1_threshold (fs : FileSystem) (args : List String)
    (vs : List (String × Nat)) (filepath text : String)
    (hscan : scanResult fs args = .ok vs)
    (hmem : filepath ∈ args) (hq : qualifies filepath = true)
    (hread : fs filepath = .ok text) :
    (filepath, countLines text) ∈ vs ↔ 300 < countLines text := by
  rw [scanResult_ok_eq fs args vs hscan]
  constructor
  · intro hin
    obtain ⟨a, _, hva⟩ := List.mem_filterMap.mp hin
    rw [violOf] at hva
    split at hva
    · split at hva
      · split at hva
        · rename_i hgt
          have hsnd := congrArg Prod.snd (Option.some.inj hva)
          simp only at hsnd
          rw [hsnd] at hgt
          exact hgt
        · cases hva
      · cases hva
    · cases hva
  · intro h300
    exact List.mem_filterMap.mpr
      ⟨filepath, hmem, by simp [violOf, hq, hread, h300]⟩

set_option maxRecDepth 8000 in
/-- Witness for C1: on the concrete filesystem `fsA`, the 301-line file
`a.py` is in the collected violation list. -/
theorem claim_C1_threshold_witness :
    ("a.py", countLines text301) ∈ [(("a.py" : String), countLines text301)] :=
  (claim_C1_threshold fsA ["a.py"] [("a.py", countLines text301)] "a.py" text301
    rfl (by decide) (by decide) rfl).mpr (by decide)

/-- C2: if every qualifying path before `P` reads successfully, `P`
qualifies and fails to read with description `e`, then whatever follows
`P`, the run prints exactly the one error line for `P` and exits 1 —
later paths are never scanned and never appear in any output. -/
theorem claim_C2_fail_fast (fs : FileSystem) (pre post : List String)
    (P e : String)
    (hpre : ∀ q ∈ pre, qualifies q = true → ∃ text, fs q = .ok text)
    (hq : qualifies P = true) (hfs : fs P = .error e) :
    main fs (pre ++ P :: post) = ⟨[errLine P e], 1⟩ := by
  have h := scanResult_error_first fs pre post P e hpre hq hfs
  exact scanLoop_error fs (pre ++ P :: post) [] P e h

/-- Witness for C2: with `missing.py` unreadable, the path `a.py` after it
is never reported and only the error line is printed. -/
theorem claim_C2_fail_fast_witness :
    main fsA ["readme.md", "missing.py", "a.py"] =
      ⟨[errLine "missing.py" "No such file or directory"], 1⟩ :=
  claim_C2_fail_fast fsA ["readme.md"] ["a.py"] "missing.py"
    "No such file or directory"
    (by
      intro q hqmem hqual
      rw [List.mem_singleton] at hqmem
      subst hqmem
      exact absurd hqual (by decide))
    (by decide) rfl

/-- C3: when the scan completes with a nonempty violation list, standard
output is exactly the header followed by one formatted line per violation
in scan order, and the exit status is 1. -/
theorem claim_C3_report_shape (fs : FileSystem) (args : List String)
    (vs : List (String × Nat))
    (hscan : scanResult fs args = .ok vs) (hne : vs ≠ []) :
    main fs args =
      ⟨"Files exceeding 300 lines:" :: vs.map (fun v => fmtViolation v.1 v.2), 1⟩ := by
  rw [main, scanLoop_ok fs args [] vs hscan, List.nil_append]
  cases vs with
  | nil => exact absurd rfl hne
  | cons v rest => rfl

set_option maxRecDepth 8000 in
/-- Witness for C3: the report for the single violation `a.py`. -/
theorem claim_C3_report_shape_witness :
    main fsA ["a.py"] =
      ⟨"Files exceeding 300 lines:" ::
        [(("a.py" : String), countLines text301)].map (fun v => fmtViolation v.1 v.2), 1⟩ :=
  claim_C3_report_shape fsA ["a.py"] [("a.py", countLines text301)] rfl
    (List.cons_ne_nil _ _)

/-- C4: a non-qualifying path is silently skipped: deleting it from the
argument list does not change the run at all, and the run does not depend
on what the filesystem holds at that path (it is never opened), so it can
cause no output, no error and no exit-status change. -/
theorem claim_C4_filter (fs : FileSystem) (p : String)
    (hq : qualifies p = false) (pre post args : List String)
    (v : Except String String) :
    main fs (pre ++ p :: post) = main fs (pre ++ post)
    ∧ main (fun q => if q = p then v else fs q) args = main fs args := by
  constructor
  · rw [main_eq_scan, main_eq_scan, scanResult_skip fs p hq pre post]
  · rw [main_eq_scan, main_eq_scan]
    have h : ∀ q ∈ args, qualifies q = true →
        (if q = p then v else fs q) = fs q := by
      intro q _ hqual
      have hne : q ≠ p := by
        intro he
        subst he
        rw [hq] at hqual
        cases hqual
      rw [if_neg hne]
    rw [scanResult_congr _ fs args h]

set_option maxRecDepth 8000 in
/-- Witness for C4: dropping `readme.md` leaves the run unchanged, and so
does changing the filesystem at `readme.md`. -/
theorem claim_C4_filter_witness :
    main fsA ["readme.md", "a.py"] = main fsA ["a.py"]
    ∧ main (fun q => if q = "readme.md" then .ok text301 else fsA q) ["a.py"] =
        main fsA ["a.py"] :=
  claim_C4_filter fsA "readme.md" (by decide) [] ["a.py"] ["a.py"] (.ok text301)

/-- C5: when every qualifying path in the argument list reads successfully
with at most 300 lines — in particular for the empty list and for lists
with no `.py` path at all — the run prints nothing and exits 0. -/
theorem claim_C5_silent_success (fs : FileSystem) (args : List String)
    (h : ∀ p ∈ args, qualifies p = true →
      ∃ text, fs p = .ok text ∧ countLines text ≤ 300) :
    main fs args = ⟨[], 0⟩ := by
  have hreads : ∀ p ∈ args, qualifies p = true → ∃ text, fs p = .ok text := by
    intro p hp hqual
    obtain ⟨text, htext, _⟩ := h p hp hqual
    exact ⟨text, htext⟩
  have hscan := scanResult_ok_of_reads fs args hreads
  have hnil : args.filterMap (violOf fs) = [] := by
    rw [List.filterMap_eq_nil_iff]
    intro p hp
    by_cases hqual : qualifies p
    · obtain ⟨text, htext, hle⟩ := h p hp hqual
      simp [violOf, hqual, htext, Nat.not_lt.mpr hle]
    · simp [violOf, hqual]
  rw [hnil] at hscan
  rw [main, scanLoop_ok fs args [] [] hscan]
  rfl

/-- Witness for C5: a non-qualifying path and a one-line qualifying file
produce no output and exit 0. -/
theorem claim_C5_silent_success_witness :
    main fsA ["readme.md", "small.py"] = ⟨[], 0⟩ :=
  claim_C5_silent_success fsA ["readme.md", "small.py"]
    (by
      intro p hp hqual
      rw [List.mem_cons, List.mem_singleton] at hp
      cases hp with
      | inl h1 => subst h1; exact absurd hqual (by decide)
      | inr h2 => subst h2; exact ⟨"line one\n", rfl, by decide⟩)

/-- C6: when the scan completes, the collected violation list is exactly
the in-order selection of the violating arguments, and each violating
path occurs in the list exactly as many times as it occurs in the
arguments — once, for a path supplied once. -/
theorem claim_C6_order_once (fs : FileSystem) (args : List String)
    (vs : List (String × Nat))
    (hscan : scanResult fs args = .ok vs) :
    vs = args.filterMap (violOf fs)
    ∧ ∀ filepath text, qualifies filepath = true → fs filepath = .ok text →
        300 < countLines text →
        vs.count (filepath, countLines text) = args.count filepath := by
  have hchar := scanResult_ok_eq fs args vs hscan
  refine ⟨hchar, ?_⟩
  intro filepath text hq hread h300
  rw [hchar]
  exact count_filterMap_violOf fs filepath (countLines text)
    (by simp [violOf, hq, hread, h300]) args

set_option maxRecDepth 8000 in
/-- Witness for C6: the violation list for a one-element argument list is
that selection, and `a.py` appears in it exactly once. -/
theorem claim_C6_order_once_witness :
    [(("a.py" : String), countLines text301)] = (["a.py"].filterMap (violOf fsA))
    ∧ [(("a.py" : String), countLines text301)].count ("a.py", countLines text301) =
        (["a.py"]).count "a.py" :=
  ⟨(claim_C6_order_once fsA ["a.py"] [("a.py", countLines text301)] rfl).1,
   (claim_C6_order_once fsA ["a.py"] [("a.py", countLines text301)] rfl).2
     "a.py" text301 (by decide) rfl (by decide)⟩

/-- C7: for every text the computed line count equals the number of
line-records in the sense of the specification — newline-terminated units,
with a final unterminated partial line counting as one record — and the
empty text counts as 0 lines.  The count is a natural number, hence
non-negative. -/
theorem claim_C7_count_semantics :
    (∀ text : String, countLines text = specRecordCount text) ∧ countLines "" = 0 :=
  ⟨countLines_eq_specRecordCount, rfl⟩

/-- C8: every run produces one of exactly three output shapes — nothing
(exit 0), a single read-error line (exit 1), or the header plus at least
one violation line (exit 1, so at least two lines).  In the error shape the
output is only the error line, so violations collected before the failing
path are never printed. -/
theorem claim_C8_output_shapes (fs : FileSystem) (args : List String) :
    main fs args = ⟨[], 0⟩
    ∨ (∃ P e, main fs args = ⟨[errLine P e], 1⟩)
    ∨ (∃ vs : List (String × Nat), vs ≠ [] ∧
        main fs args =
          ⟨"Files exceeding 300 lines:" :: vs.map (fun v => fmtViolation v.1 v.2), 1⟩) := by
  rw [main_eq_scan]
  cases h : scanResult fs args with
  | error pe => exact Or.inr (Or.inl ⟨pe.1, pe.2, rfl⟩)
  | ok vs =>
    cases vs with
    | nil => exact Or.inl rfl
    | cons v rest =>
      exact Or.inr (Or.inr ⟨v :: rest, List.cons_ne_nil _ _, rfl⟩)

/-- C9: the run is a pure function of the argument list and of the
filesystem contents at the qualifying paths, so two runs over unchanged
contents give identical output and exit code — even changing the
filesystem outside the qualifying paths changes nothing. -/
theorem claim_C9_deterministic (fs₁ fs₂ : FileSystem) (args : List String)
    (h : ∀ p ∈ args, qualifies p = true → fs₁ p = fs₂ p) :
    main fs₁ args = main fs₂ args := by
  rw [main_eq_scan, main_eq_scan, scanResult_congr fs₁ fs₂ args h]

/-- Witness for C9: perturbing the filesystem at a path not in the
argument list leaves the run unchanged. -/
theorem claim_C9_deterministic_witness :
    main fsA ["a.py"] =
      main (fun p => if p = "other.txt" then .ok "" else fsA p) ["a.py"] :=
  claim_C9_deterministic fsA
    (fun p => if p = "other.txt" then .ok "" else fsA p) ["a.py"]
    (by
      intro p hp _
      rw [List.mem_singleton] at hp
      subst hp
      rfl)

/-- C10: every run ends in an explicit exit with status 0 or status 1; the
read-failure branch (the model of the caught exception) always reaches the
exit-1 error path, and no other status is reachable. -/
theorem claim_C10_exit_status (fs : FileSystem) (args : List String) :
    (main fs args).exitCode = 0 ∨ (main fs args).exitCode = 1 := by
  rw [main_eq_scan]
  cases scanResult fs args with
  | error pe => exact Or.inr rfl
  | ok vs =>
    cases vs with
    | nil => exact Or.inl rfl
    | cons v rest => exact Or.inr rfl

end CheckFileLength
